import Mathlib

/-!
# Verification of the Caryvn SMM reseller backend

A shallow embedding, in Lean 4, of the financially relevant parts of the
Caryvn backend (a Django application):

* the wallet ledger (`core/models.py`: `Wallet.deposit`, `Wallet.charge`,
  `Wallet.refund`, `Wallet.create_pending_deposit`, `Wallet.confirm_deposit`,
  `Wallet.fail_deposit`);
* the pricing resolver (`core/services/pricing.py`:
  `PricingService.calculate_user_rate`, `PricingService.calculate_order_profit`,
  `PricingService._detect_platform`);
* the provider gateway retry loop (`core/services/smm_provider.py`:
  `SMMProvider._make_request`);
* the order placement and admin cancel/refund paths (`core/views/main.py`:
  `OrderCreateView.post`, `AdminOrderCancelRefundView.post`);
* the payment webhook handler (`core/views/payment_views.py`:
  `SquadWebhookView.post`).

Python `Decimal` amounts are modelled as exact rationals (`ℚ`); the
4-decimal-place `Decimal.quantize` with the default `ROUND_HALF_EVEN`
context rounding is modelled by `quantize4` below.  Database rows are
modelled as in-memory lists; a Django queryset already filtered and
ordered (`MarkupRule.objects.filter(is_active=True).order_by('-priority')`)
is modelled as the list of rules it returns, in that order.
-/

/-- Round-half-even of a rational to an integer: the rounding mode used by
Python's `Decimal.quantize` under the default context. -/
def rhe (q : ℚ) : ℤ :=
  if q - ⌊q⌋ < 1/2 then ⌊q⌋
  else if 1/2 < q - ⌊q⌋ then ⌊q⌋ + 1
  else if ⌊q⌋ % 2 = 0 then ⌊q⌋ else ⌊q⌋ + 1

/-- Model of `Decimal.quantize(Decimal('0.0001'))` with default (half-even) rounding. -/
def quantize4 (q : ℚ) : ℚ := ((rhe (q * 10000) : ℤ) : ℚ) / 10000

/-! ## The wallet ledger (`core/models.py`) -/

/-- Model of `Transaction.Type` (`core/models.py`). -/
inductive TxType
  | deposit
  | charge
  | refund
  | bonus
deriving DecidableEq, Repr

/-- Model of `Transaction.Status` (`core/models.py`). -/
inductive TxStatus
  | pending
  | success
  | failed
deriving DecidableEq, Repr

/-- A wallet `Transaction` row.  The `description`, `payment_reference` and
`payment_gateway` columns play no role in the claims under verification and
are omitted; a transaction is addressed by its index in the wallet's
transaction list (standing in for its primary key). -/
structure Txn where
  type : TxType
  amount : ℚ
  balanceAfter : ℚ
  status : TxStatus
deriving DecidableEq, Repr

/-- A `Wallet` row together with its transaction rows, in creation order. -/
structure Wallet where
  balance : ℚ
  txs : List Txn
deriving DecidableEq, Repr

/-- Model of `Wallet.create_pending_deposit`: append a `PENDING` deposit transaction,
`balance_after` snapshotting the (uncredited) balance; the balance is not
touched.  The created transaction sits at index `w.txs.length`. -/
def Wallet.create_pending_deposit (w : Wallet) (amount : ℚ) : Wallet :=
  { w with txs := w.txs ++ [⟨TxType.deposit, amount, w.balance, TxStatus.pending⟩] }

/-- Model of `Wallet.confirm_deposit`: under the row locks, re-read the transaction;
if it is no longer `PENDING` return the current balance unchanged, otherwise
credit the amount, mark the transaction `SUCCESS` and snapshot
`balance_after`.  Returns the wallet state and the returned balance.  An
index with no transaction (Python would raise `DoesNotExist`, aborting the
atomic block with no effect) is a no-op. -/
def Wallet.confirm_deposit (w : Wallet) (i : ℕ) : Wallet × ℚ :=
  match w.txs[i]? with
  | none => (w, w.balance)
  | some tx =>
    if tx.status ≠ TxStatus.pending then (w, w.balance)
    else
      let b' := w.balance + tx.amount
      ({ balance := b',
         txs := w.txs.set i { tx with status := TxStatus.success, balanceAfter := b' } }, b')

/-- Model of `Wallet.fail_deposit`: `PENDING → FAILED`, only if currently `PENDING`;
no balance effect. -/
def Wallet.fail_deposit (w : Wallet) (i : ℕ) : Wallet :=
  match w.txs[i]? with
  | none => w
  | some tx =>
    if tx.status ≠ TxStatus.pending then w
    else { w with txs := w.txs.set i { tx with status := TxStatus.failed } }

/-- Model of `Wallet.deposit`: credit immediately and append a `SUCCESS` deposit
transaction.  Returns the wallet state and the returned balance. -/
def Wallet.deposit (w : Wallet) (amount : ℚ) : Wallet × ℚ :=
  let b' := w.balance + amount
  ({ balance := b',
     txs := w.txs ++ [⟨TxType.deposit, amount, b', TxStatus.success⟩] }, b')

/-- Model of `Wallet.charge`: raise `ValueError('Insufficient balance')` when
`balance < amount`; otherwise debit and append a `SUCCESS` charge
transaction with negated amount. -/
def Wallet.charge (w : Wallet) (amount : ℚ) : Except String (Wallet × ℚ) :=
  if w.balance < amount then Except.error "Insufficient balance"
  else
    let b' := w.balance - amount
    Except.ok ({ balance := b',
                 txs := w.txs ++ [⟨TxType.charge, -amount, b', TxStatus.success⟩] }, b')

/-- Model of `Wallet.refund`: credit and append a `SUCCESS` refund transaction. -/
def Wallet.refund (w : Wallet) (amount : ℚ) : Wallet × ℚ :=
  let b' := w.balance + amount
  ({ balance := b',
     txs := w.txs ++ [⟨TxType.refund, amount, b', TxStatus.success⟩] }, b')

/-- One public Ledger operation, as enumerated in the spec (§4.1). -/
inductive LedgerOp
  | deposit (amount : ℚ)
  | charge (amount : ℚ)
  | refund (amount : ℚ)
  | createPendingDeposit (amount : ℚ)
  | confirmDeposit (i : ℕ)
  | failDeposit (i : ℕ)

/-- Apply one Ledger operation to a wallet.  A failing `charge` (Python
raises before any mutation) leaves the wallet unchanged. -/
def applyOp (w : Wallet) : LedgerOp → Wallet
  | LedgerOp.deposit a => (w.deposit a).1
  | LedgerOp.charge a =>
    match w.charge a with
    | Except.ok p => p.1
    | Except.error _ => w
  | LedgerOp.refund a => (w.refund a).1
  | LedgerOp.createPendingDeposit a => w.create_pending_deposit a
  | LedgerOp.confirmDeposit i => (w.confirm_deposit i).1
  | LedgerOp.failDeposit i => w.fail_deposit i

/-- A fresh wallet: zero balance, no transactions (`Wallet` is created with
its defaults alongside the user). -/
def initWallet : Wallet := ⟨0, []⟩

/-- Run a sequence of Ledger operations from a fresh wallet. -/
def runOps (ops : List LedgerOp) : Wallet := ops.foldl applyOp initWallet

/-- Sum of the `amount` of the `SUCCESS`-status transactions of a list. -/
def successSum (txs : List Txn) : ℚ :=
  txs.foldr (fun t acc => if t.status = TxStatus.success then t.amount + acc else acc) 0

/-- Iterate `confirm_deposit` `n` times on the same transaction. -/
def confirmN (w : Wallet) (i : ℕ) : ℕ → Wallet
  | 0 => w
  | n + 1 => confirmN (w.confirm_deposit i).1 i n

/-! ## Order placement and admin cancel/refund (`core/views/main.py`) -/

/-- Model of `Order.Status` (`core/models.py`). -/
inductive OrderStatus
  | pending
  | processing
  | inProgress
  | completed
  | partialFill
  | canceled
  | refunded
  | failed
deriving DecidableEq, Repr

/-- Outcome of `smm_provider.create_order` as observed by
`OrderCreateView.post`: either the call raised `SMMProviderError`, or it
returned a parsed dict that may carry an `order` id and may carry an
`error` value (`'order' in result` is tested first). -/
inductive ProviderResult
  | raised (msg : String)
  | returned (orderId : Option String) (err : Option String)

/-- The fields of an `Order` row that the claims inspect. -/
structure OrderSt where
  provider_order_id : String
  status : OrderStatus
  charge : ℚ
deriving DecidableEq, Repr

/-- Model of `OrderCreateView.post` from the balance check onwards: reject when
`wallet.balance < charge`; otherwise create the order in `PENDING`, debit
the wallet (`wallet.charge`), submit to the provider; on a provider error in
the response or a raised `SMMProviderError`, refund the full charge and mark
the order `FAILED`; on success record the provider order id and mark it
`PROCESSING`; a response carrying neither key leaves the order `PENDING`.
Returns the wallet and the created order (`none` = rejected, no order). -/
def placeOrder (w : Wallet) (c : ℚ) (pr : ProviderResult) : Wallet × Option OrderSt :=
  if w.balance < c then (w, none)
  else
    match w.charge c with
    | Except.error _ => (w, none)
    | Except.ok (w1, _) =>
      match pr with
      | ProviderResult.returned (some oid) _ =>
        (w1, some ⟨oid, OrderStatus.processing, c⟩)
      | ProviderResult.returned none (some _) =>
        ((w1.refund c).1, some ⟨"", OrderStatus.failed, c⟩)
      | ProviderResult.returned none none =>
        (w1, some ⟨"", OrderStatus.pending, c⟩)
      | ProviderResult.raised _ =>
        ((w1.refund c).1, some ⟨"", OrderStatus.failed, c⟩)

/-- Does `OrderCreateView.post` treat this provider outcome as a failure
(`provider_error` set)?  True for a raised `SMMProviderError` and for a
response carrying `error` but no `order`. -/
def providerFailed : ProviderResult → Prop
  | ProviderResult.raised _ => True
  | ProviderResult.returned none (some _) => True
  | _ => False

/-- Model of `AdminOrderCancelRefundView.post`, per order: skip when the status is
`completed`, `canceled` or `refunded`; otherwise refund `order.charge` to
the user's wallet and set the status to `CANCELED`. -/
def adminCancelRefund (w : Wallet) (ord : OrderSt) : Wallet × OrderSt :=
  if ord.status = OrderStatus.completed ∨ ord.status = OrderStatus.canceled ∨
      ord.status = OrderStatus.refunded then
    (w, ord)
  else
    ((w.refund ord.charge).1, { ord with status := OrderStatus.canceled })

/-! ## The pricing resolver (`core/services/pricing.py`) -/

/-- Model of `MarkupRule.Level` (`core/models.py`). -/
inductive RuleLevel
  | globalLevel
  | platformLevel
  | categoryLevel
  | serviceLevel
deriving DecidableEq, Repr

/-- The fields of a `Service` row that `calculate_user_rate` consults:
its primary key and the primary key of its (optional) category. -/
structure ServiceRec where
  id : ℕ
  category_id : Option ℕ
deriving DecidableEq, Repr

/-- A `MarkupRule` row.  `calculate_user_rate` receives the active rules
already ordered by descending `priority` (the Django queryset), so
`priority` and `is_active` are represented by the list itself. -/
structure MarkupRule where
  level : RuleLevel
  platform : String
  category_id : Option ℕ
  service_id : Option ℕ
  percentage : ℚ
  fixed_addition : ℚ
deriving DecidableEq, Repr

/-- Does `needle` occur at the head of `hay`? -/
def charsBeginWith : List Char → List Char → Bool
  | [], _ => true
  | _ :: _, [] => false
  | a :: as, b :: bs => a = b && charsBeginWith as bs

/-- Does `needle` occur contiguously anywhere in `hay`?  (Python's
`needle in hay` on strings.) -/
def charsContain (needle : List Char) : List Char → Bool
  | [] => needle.isEmpty
  | b :: bs => charsBeginWith needle (b :: bs) || charsContain needle bs

/-- Python's substring test `needle in hay`. -/
def strContains (hay needle : String) : Bool := charsContain needle.data hay.data

/-- The fixed platform vocabulary of `PricingService._detect_platform`. -/
def platformVocab : List String :=
  ["instagram", "tiktok", "youtube", "facebook", "twitter",
   "telegram", "snapchat", "linkedin", "threads", "spotify"]

/-- Model of `PricingService._detect_platform`: first vocabulary entry occurring in
the lowercased category name, capitalized; `''` when none matches. -/
def detect_platform (category_name : String) : String :=
  match platformVocab.find? (fun p => strContains category_name.toLower p) with
  | some p => p.capitalize
  | none => ""

/-- The category used for category-level matching: the service's category
foreign key (`category = service.category` when both are set). -/
def derivedCat : Option ServiceRec → Option ℕ
  | some s => s.category_id
  | none => none

/-- The platform used for platform-level matching: derived from the
category name when no platform was supplied. -/
def derivedPlat (category_name platform : String) : String :=
  if platform = "" ∧ category_name ≠ "" then detect_platform category_name else platform

/-- The rule loop of `PricingService.calculate_user_rate`, rules visited in
queryset order (descending priority).  `Sum.inl` is the early
`return provider_rate + rule.fixed_addition` for a matching service-level
rule with positive fixed addition; `Sum.inr` carries the
`(applied_percentage, applied_fixed)` accumulators. -/
def applyMarkupRules (pr : ℚ) (svc : Option ServiceRec) (cat : Option ℕ)
    (plat : String) (ap af : ℚ) : List MarkupRule → Sum ℚ (ℚ × ℚ)
  | [] => Sum.inr (ap, af)
  | r :: rest =>
    match r.level with
    | RuleLevel.serviceLevel =>
      match svc with
      | some s =>
        if r.service_id = some s.id then
          if 0 < r.fixed_addition then Sum.inl (pr + r.fixed_addition)
          else applyMarkupRules pr svc cat plat (max ap r.percentage) af rest
        else applyMarkupRules pr svc cat plat ap af rest
      | none => applyMarkupRules pr svc cat plat ap af rest
    | RuleLevel.categoryLevel =>
      match cat with
      | some cid =>
        if r.category_id = some cid then
          applyMarkupRules pr svc cat plat (max ap r.percentage) (max af r.fixed_addition) rest
        else applyMarkupRules pr svc cat plat ap af rest
      | none => applyMarkupRules pr svc cat plat ap af rest
    | RuleLevel.platformLevel =>
      if plat ≠ "" ∧ r.platform.toLower = plat.toLower then
        applyMarkupRules pr svc cat plat (max ap r.percentage) (max af r.fixed_addition) rest
      else applyMarkupRules pr svc cat plat ap af rest
    | RuleLevel.globalLevel =>
      applyMarkupRules pr svc cat plat
        (if ap = 0 then r.percentage else ap)
        (if af = 0 then r.fixed_addition else af) rest

/-- Model of `PricingService.calculate_user_rate`. -/
def calculate_user_rate (provider_rate : ℚ) (service : Option ServiceRec)
    (category_name : String) (platform : String) (rules : List MarkupRule) : ℚ :=
  match applyMarkupRules provider_rate service (derivedCat service)
      (derivedPlat category_name platform) 0 0 rules with
  | Sum.inl early => early
  | Sum.inr (ap, af) =>
    let f1 := if 0 < ap then provider_rate * (1 + ap / 100) else provider_rate
    let f2 := if 0 < af then f1 + af else f1
    quantize4 f2

/-- Model of `PricingService.calculate_order_profit`. -/
def calculate_order_profit (provider_rate user_rate : ℚ) (quantity : ℤ) : ℚ :=
  quantize4 ((user_rate / 1000) * quantity - (provider_rate / 1000) * quantity)

/-- A service-level rule matching service `s` whose fixed addition is
positive (the short-circuit condition of `calculate_user_rate`). -/
def serviceFixedHit (s : ServiceRec) (r : MarkupRule) : Bool :=
  r.level == RuleLevel.serviceLevel && r.service_id == some s.id &&
    decide (0 < r.fixed_addition)

/-- Does rule `r` match at level `lvl`, given the service, derived category
and derived platform?  (The matching conditions of the four branches of the
rule loop, one level at a time.) -/
def levelHit (svc : Option ServiceRec) (cat : Option ℕ) (plat : String)
    (lvl : RuleLevel) (r : MarkupRule) : Bool :=
  r.level == lvl &&
    match lvl with
    | RuleLevel.serviceLevel =>
      match svc with
      | some s => r.service_id == some s.id
      | none => false
    | RuleLevel.categoryLevel =>
      match cat with
      | some cid => r.category_id == some cid
      | none => false
    | RuleLevel.platformLevel =>
      decide (plat ≠ "") && (r.platform.toLower == plat.toLower)
    | RuleLevel.globalLevel => true

/-- Maximum `percentage` over the rules matching at one level (0 if none). -/
def maxPercAt (svc : Option ServiceRec) (cat : Option ℕ) (plat : String)
    (lvl : RuleLevel) (rules : List MarkupRule) : ℚ :=
  (rules.filter (levelHit svc cat plat lvl)).foldr (fun r m => max r.percentage m) 0

/-- Maximum `fixed_addition` over the rules matching at one level. -/
def maxFixedAt (svc : Option ServiceRec) (cat : Option ℕ) (plat : String)
    (lvl : RuleLevel) (rules : List MarkupRule) : ℚ :=
  (rules.filter (levelHit svc cat plat lvl)).foldr (fun r m => max r.fixed_addition m) 0

/-- First non-zero entry of a list (0 if all are zero). -/
def firstNonZero : List ℚ → ℚ
  | [] => 0
  | x :: xs => if x ≠ 0 then x else firstNonZero xs

/-- The markup accumulation as the claim words it (spec §4.2 step 3), for
comparison with `calculate_user_rate`: each component (percentage, fixed
addition) is taken from the highest-precedence level — service > category >
platform > global — that sets a non-zero value, combining rules within one
level by maximum. -/
def specUserRate (provider_rate : ℚ) (service : Option ServiceRec)
    (category_name platform : String) (rules : List MarkupRule) : ℚ :=
  let cat := derivedCat service
  let plat := derivedPlat category_name platform
  let P := firstNonZero
    [maxPercAt service cat plat RuleLevel.serviceLevel rules,
     maxPercAt service cat plat RuleLevel.categoryLevel rules,
     maxPercAt service cat plat RuleLevel.platformLevel rules,
     maxPercAt service cat plat RuleLevel.globalLevel rules]
  let F := firstNonZero
    [maxFixedAt service cat plat RuleLevel.serviceLevel rules,
     maxFixedAt service cat plat RuleLevel.categoryLevel rules,
     maxFixedAt service cat plat RuleLevel.platformLevel rules,
     maxFixedAt service cat plat RuleLevel.globalLevel rules]
  quantize4
    ((if 0 < P then provider_rate * (1 + P / 100) else provider_rate) +
     (if 0 < F then F else 0))

/-- The short-circuit condition, tolerating an absent service. -/
def serviceFixedHitO (svc : Option ServiceRec) (r : MarkupRule) : Bool :=
  match svc with
  | some s => serviceFixedHit s r
  | none => false

/-- Does rule `r` contribute to the running `applied_percentage`?
(Matching service-, category- or platform-level rules do.) -/
def percHit (svc : Option ServiceRec) (cat : Option ℕ) (plat : String)
    (r : MarkupRule) : Bool :=
  levelHit svc cat plat RuleLevel.serviceLevel r ||
  levelHit svc cat plat RuleLevel.categoryLevel r ||
  levelHit svc cat plat RuleLevel.platformLevel r

/-- Does rule `r` contribute to the running `applied_fixed`?  (Matching
category- and platform-level rules do; service-level rules never do.) -/
def fixedHit (svc : Option ServiceRec) (cat : Option ℕ) (plat : String)
    (r : MarkupRule) : Bool :=
  levelHit svc cat plat RuleLevel.categoryLevel r ||
  levelHit svc cat plat RuleLevel.platformLevel r

/-- Maximum percentage over all percentage-contributing rules (0 if none). -/
def maxPercOf (svc : Option ServiceRec) (cat : Option ℕ) (plat : String)
    (rules : List MarkupRule) : ℚ :=
  rules.foldr (fun r m => if percHit svc cat plat r then max r.percentage m else m) 0

/-- Maximum fixed addition over all fixed-contributing rules (0 if none). -/
def maxFixedOf (svc : Option ServiceRec) (cat : Option ℕ) (plat : String)
    (rules : List MarkupRule) : ℚ :=
  rules.foldr (fun r m => if fixedHit svc cat plat r then max r.fixed_addition m else m) 0

/-- The percentage the loop adopts from global-level rules when all markup
values are non-negative: the running `applied_percentage` stays zero until
the first rule with a positive percentage contribution, so the percentage
of the first global rule with a positive percentage is adopted provided no
percentage-contributing (matching non-global) rule with a positive
percentage precedes it; any such earlier rule locks every global rule out
(the accumulator is no longer zero when they are scanned); 0 when no global
rule is adopted. -/
def globalPerc (svc : Option ServiceRec) (cat : Option ℕ) (plat : String) :
    List MarkupRule → ℚ
  | [] => 0
  | r :: rest =>
    if r.level = RuleLevel.globalLevel then
      if 0 < r.percentage then r.percentage else globalPerc svc cat plat rest
    else if percHit svc cat plat r = true ∧ 0 < r.percentage then 0
    else globalPerc svc cat plat rest

/-- The fixed addition the loop adopts from global-level rules when all
markup values are non-negative; the mirror of `globalPerc` for the
`applied_fixed` accumulator, whose non-global contributors are the matching
category- and platform-level rules. -/
def globalFixed (svc : Option ServiceRec) (cat : Option ℕ) (plat : String) :
    List MarkupRule → ℚ
  | [] => 0
  | r :: rest =>
    if r.level = RuleLevel.globalLevel then
      if 0 < r.fixed_addition then r.fixed_addition else globalFixed svc cat plat rest
    else if fixedHit svc cat plat r = true ∧ 0 < r.fixed_addition then 0
    else globalFixed svc cat plat rest

/-! ## The provider gateway retry loop (`core/services/smm_provider.py`) -/

/-- What `_make_request` sees of a parsed response body: the value under
the `error` key when the parsed dict carries one (`none` both for a dict
without the key and for a non-dict or unparseable body, which the code
treats the same way for the error check). -/
structure ProviderBody where
  errKey : Option String
deriving DecidableEq, Repr

/-- One attempt of the retry loop: a transport-level timeout, another
transport-level failure (connection error), or a received HTTP response. -/
inductive Attempt
  | timeout
  | connError (msg : String)
  | ok (body : ProviderBody)
deriving DecidableEq, Repr

/-- Is this attempt outcome a transport-level failure? -/
def Attempt.isTransport : Attempt → Bool
  | Attempt.ok _ => false
  | _ => true

/-- The body of the first attempt that received a response, if any. -/
def firstBody : List Attempt → Option ProviderBody
  | [] => none
  | Attempt.ok b :: _ => some b
  | _ :: rest => firstBody rest

/-- Number of transport failures before the first received response. -/
def leadingFails : List Attempt → ℕ
  | [] => 0
  | Attempt.ok _ :: _ => 0
  | _ :: rest => leadingFails rest + 1

/-- The `for attempt in range(self.max_retries)` loop of `_make_request`,
threading `error_msg` and `response_data` (initially `{}`); breaks on the
first received response, setting `error_msg` from the body's `error` key
when present.  Returns `(error_msg, response_data, posts made)`. -/
def goAttempts : List Attempt → ℕ → String → ProviderBody → String × ProviderBody × ℕ
  | [], _, em, rd => (em, rd, 0)
  | a :: rest, k, em, rd =>
    match a with
    | Attempt.ok b =>
      (match b.errKey with
       | some e => e
       | none => em, b, 1)
    | Attempt.timeout =>
      let r := goAttempts rest (k + 1)
        ("Request timeout (attempt " ++ toString (k + 1) ++ "/3)") rd
      (r.1, r.2.1, r.2.2 + 1)
    | Attempt.connError m =>
      let r := goAttempts rest (k + 1) ("Request failed: " ++ m) rd
      (r.1, r.2.1, r.2.2 + 1)

/-- Model of `SMMProvider._make_request` with `max_retries = 3`: run the attempt
loop, then raise `SMMProviderError(error_msg)` exactly when `error_msg` is
non-empty and the response data carries no `error` key; otherwise return
the response data. -/
def makeRequest (a1 a2 a3 : Attempt) : Except String ProviderBody :=
  let r := goAttempts [a1, a2, a3] 0 "" ⟨none⟩
  if r.1 ≠ "" ∧ r.2.1.errKey = none then Except.error r.1 else Except.ok r.2.1

/-- Did the call raise? -/
def isErr : Except String ProviderBody → Bool
  | Except.error _ => true
  | Except.ok _ => false

/-- What the code actually does: raise exactly when some transport failure
occurred before the first received response (or no response was received at
all) and the received response, if any, carries no `error` key. -/
def raiseFlag (l : List Attempt) : Bool :=
  match firstBody l with
  | none => true
  | some b => b.errKey.isNone && decide (1 ≤ leadingFails l)

/-- The claim's raise condition: all retries exhausted on transport
failure, or the received response carries a business error. -/
def specRaiseCond (a1 a2 a3 : Attempt) : Bool :=
  (a1.isTransport && a2.isTransport && a3.isTransport) ||
    (match firstBody [a1, a2, a3] with
     | some b => b.errKey.isSome
     | none => false)

/-! ## The payment webhook (`core/views/payment_views.py`) -/

/-- What `SquadWebhookView.post` reads from a parsed webhook payload:
the `Event` value, the `transaction_status` value, and the resolved
transaction reference (the `transaction_ref`/`TransactionRef` digging,
`''` when absent). -/
structure WebhookPayload where
  event : String
  transaction_status : String
  txRef : String
deriving DecidableEq, Repr

/-- The webhook responses the claims distinguish. -/
inductive WebhookResp
  | unauthorized
  | badRequest
  | okResp
deriving DecidableEq, Repr

/-- Model of `SquadWebhookView.post`.  `secretKey` is `settings.SQUAD_SECRET_KEY`,
`signature` the `x-squad-encrypted-body` header (`''` when absent), `sigOk`
the value `validate_webhook_signature` would return for this body and
signature, `payload` the JSON-parsed body (`none` = parse failure), `w` the
wallet owning the referenced transaction and `findRef` the
`payment_reference` lookup into its transaction list.  Signature validation
runs only when both a secret key is configured and a signature header is
present; on a successful-payment event the referenced transaction, if still
`PENDING`, is confirmed. -/
def squadWebhook (secretKey signature : String) (sigOk : Bool)
    (payload : Option WebhookPayload) (w : Wallet) (findRef : String → Option ℕ) :
    WebhookResp × Wallet :=
  if secretKey ≠ "" ∧ signature ≠ "" ∧ sigOk = false then (WebhookResp.unauthorized, w)
  else
    match payload with
    | none => (WebhookResp.badRequest, w)
    | some p =>
      if p.event = "charge_successful" ∨ p.transaction_status = "Success" then
        if p.txRef = "" then (WebhookResp.okResp, w)
        else
          match findRef p.txRef with
          | none => (WebhookResp.okResp, w)
          | some i =>
            match w.txs[i]? with
            | some tx =>
              if tx.status = TxStatus.pending then
                (WebhookResp.okResp, (w.confirm_deposit i).1)
              else (WebhookResp.okResp, w)
            | none => (WebhookResp.okResp, w)
      else (WebhookResp.okResp, w)

/-- Reference lookup for the concrete webhook scenarios: `CRV-1` is the
pending transaction at index 0. -/
def lookupRefCex : String → Option ℕ := fun r => if r = "CRV-1" then some 0 else none

/-! ## Theorems -/

theorem rhe_cases (q : ℚ) : rhe q = ⌊q⌋ ∨ rhe q = ⌊q⌋ + 1 := by
  unfold rhe
  split_ifs <;> simp

theorem rhe_eq_floor (q : ℚ) (h : q - ⌊q⌋ < 1/2) : rhe q = ⌊q⌋ := by
  unfold rhe
  rw [if_pos h]

theorem rhe_eq_ceil (q : ℚ) (h : 1/2 < q - ⌊q⌋) : rhe q = ⌊q⌋ + 1 := by
  unfold rhe
  rw [if_neg (by linarith), if_pos h]

theorem rhe_tie (q : ℚ) (h : q - ⌊q⌋ = 1/2) :
    rhe q = (if ⌊q⌋ % 2 = 0 then ⌊q⌋ else ⌊q⌋ + 1) := by
  unfold rhe
  rw [if_neg (by linarith), if_neg (by linarith)]

/-- Doubling the argument changes the half-even rounding by at most one unit
relative to doubling the result. -/
theorem rhe_double_bound (q : ℚ) : |rhe (2 * q) - 2 * rhe q| ≤ 1 := by
  have hfl : ((⌊q⌋ : ℚ)) ≤ q := Int.floor_le q
  have hfu : q < ⌊q⌋ + 1 := Int.lt_floor_add_one q
  rcases lt_trichotomy (q - ⌊q⌋) (1/2) with h | h | h
  · -- fractional part below one half: `rhe q = ⌊q⌋`
    have h1 : rhe q = ⌊q⌋ := rhe_eq_floor q h
    have hf2 : ⌊2 * q⌋ = 2 * ⌊q⌋ := by
      rw [Int.floor_eq_iff]
      constructor
      · push_cast; linarith
      · push_cast; linarith
    rcases rhe_cases (2 * q) with h2 | h2 <;> rw [h1, h2, hf2] <;>
      simp only [abs_le] <;> constructor <;> omega
  · -- exact tie: `2 * q` is the odd integer `2 * ⌊q⌋ + 1`
    have h2q : (2 : ℚ) * q = ((2 * ⌊q⌋ + 1 : ℤ) : ℚ) := by push_cast; linarith
    have hf2 : ⌊2 * q⌋ = 2 * ⌊q⌋ + 1 := by rw [h2q, Int.floor_intCast]
    have h2 : rhe (2 * q) = 2 * ⌊q⌋ + 1 := by
      have := rhe_eq_floor (2 * q) (by rw [hf2, h2q]; push_cast; linarith)
      rw [this, hf2]
    have h1 := rhe_tie q h
    rw [h2, h1]
    split_ifs <;> simp only [abs_le] <;> constructor <;> linarith
  · -- fractional part above one half: `rhe q = ⌊q⌋ + 1`
    have h1 : rhe q = ⌊q⌋ + 1 := rhe_eq_ceil q h
    have hf2 : ⌊2 * q⌋ = 2 * ⌊q⌋ + 1 := by
      rw [Int.floor_eq_iff]
      constructor
      · push_cast; linarith
      · push_cast; linarith
    rcases rhe_cases (2 * q) with h2 | h2 <;> rw [h1, h2, hf2] <;>
      simp only [abs_le] <;> constructor <;> omega

theorem successSum_append (l₁ l₂ : List Txn) :
    successSum (l₁ ++ l₂) = successSum l₁ + successSum l₂ := by
  induction l₁ with
  | nil => simp [successSum]
  | cons t l ih =>
    simp only [successSum, List.cons_append, List.foldr_cons] at *
    rw [ih]
    split_ifs <;> ring

theorem successSum_singleton (t : Txn) :
    successSum [t] = if t.status = TxStatus.success then t.amount else 0 := by
  simp [successSum]

/-- Replacing the transaction at a valid index shifts the `SUCCESS` sum by
the difference of the two contributions. -/
theorem successSum_set (l : List Txn) (i : ℕ) (tx tx' : Txn)
    (h : l[i]? = some tx) :
    successSum (l.set i tx') =
      successSum l
        + (if tx'.status = TxStatus.success then tx'.amount else 0)
        - (if tx.status = TxStatus.success then tx.amount else 0) := by
  induction l generalizing i with
  | nil => simp at h
  | cons t l ih =>
    cases i with
    | zero =>
      simp only [List.getElem?_cons_zero, Option.some.injEq] at h
      subst h
      simp only [List.set_cons_zero, successSum, List.foldr_cons]
      split_ifs <;> ring
    | succ n =>
      simp only [List.getElem?_cons_succ] at h
      simp only [List.set_cons_succ, successSum, List.foldr_cons]
      have := ih n h
      simp only [successSum] at this
      rw [this]
      split_ifs <;> ring

theorem getElem?_set_same {α : Type} (l : List α) (i : ℕ) (a b : α)
    (h : l[i]? = some a) : (l.set i b)[i]? = some b := by
  induction l generalizing i with
  | nil => simp at h
  | cons t l ih =>
    cases i with
    | zero => simp
    | succ n =>
      simp only [List.getElem?_cons_succ] at h
      simpa using ih n h

/-- Every single Ledger operation preserves the balance/`SUCCESS`-sum
invariant. -/
theorem applyOp_preserves_invariant (w : Wallet) (op : LedgerOp)
    (h : w.balance = successSum w.txs) :
    (applyOp w op).balance = successSum (applyOp w op).txs := by
  cases op with
  | deposit a =>
    simp only [applyOp, Wallet.deposit, successSum_append, successSum_singleton]
    simp [h]
  | charge a =>
    simp only [applyOp, Wallet.charge]
    split
    next p heq =>
      split at heq
      · exact absurd heq (by simp)
      · simp only [Except.ok.injEq] at heq
        subst heq
        simp [successSum_append, successSum_singleton, h]
        ring
    next e heq => exact h
  | refund a =>
    simp only [applyOp, Wallet.refund, successSum_append, successSum_singleton]
    simp [h]
  | createPendingDeposit a =>
    simp only [applyOp, Wallet.create_pending_deposit, successSum_append,
      successSum_singleton]
    simp [h]
  | confirmDeposit i =>
    simp only [applyOp, Wallet.confirm_deposit]
    split
    · exact h
    next tx heq =>
      split
      · exact h
      next hne =>
        simp only [ne_eq, Decidable.not_not] at hne
        simp only []
        rw [successSum_set w.txs i tx _ heq]
        simp [hne, h]
  | failDeposit i =>
    simp only [applyOp, Wallet.fail_deposit]
    split
    · exact h
    next tx heq =>
      split
      · exact h
      next hne =>
        simp only [ne_eq, Decidable.not_not] at hne
        simp only []
        rw [successSum_set w.txs i tx _ heq]
        simp [hne, h]

theorem foldl_preserves_invariant (ops : List LedgerOp) (w : Wallet)
    (h : w.balance = successSum w.txs) :
    (ops.foldl applyOp w).balance = successSum (ops.foldl applyOp w).txs := by
  induction ops generalizing w with
  | nil => exact h
  | cons op ops ih =>
    exact ih (applyOp w op) (applyOp_preserves_invariant w op h)

/-- Claim C2: For every sequence of Ledger operations (deposit, charge,
refund, create_pending_deposit, confirm_deposit, fail_deposit) starting from
a fresh wallet with zero balance and no transactions, the final balance
equals the sum of the amounts of the wallet's `SUCCESS`-status transactions;
`PENDING` and `FAILED` transactions contribute nothing. -/
theorem ledger_invariant (ops : List LedgerOp) :
    (runOps ops).balance = successSum (runOps ops).txs := by
  unfold runOps
  exact foldl_preserves_invariant ops initWallet (by simp [initWallet, successSum])

theorem confirm_deposit_noop (w : Wallet) (i : ℕ) (tx : Txn)
    (htx : w.txs[i]? = some tx) (hs : tx.status ≠ TxStatus.pending) :
    w.confirm_deposit i = (w, w.balance) := by
  unfold Wallet.confirm_deposit
  rw [htx]
  simp [hs]

theorem confirmN_fix (w : Wallet) (i : ℕ) (h : (w.confirm_deposit i).1 = w) :
    ∀ n, confirmN w i n = w := by
  intro n
  induction n with
  | zero => rfl
  | succ m ih => simp only [confirmN, h, ih]

/-- Claim C1: `confirm_deposit` is idempotent: on a `PENDING` deposit
transaction, the first call credits the balance by the transaction amount
and settles the transaction (`SUCCESS`, `balance_after` = post-credit
balance), every further call is a no-op returning the unchanged balance,
and iterating the call any number `n ≥ 1` of times sequentially yields
exactly the state after the first call. -/
theorem confirm_deposit_idempotent (w : Wallet) (i : ℕ) (tx : Txn) (n : ℕ)
    (htx : w.txs[i]? = some tx) (hp : tx.status = TxStatus.pending) (hn : 1 ≤ n) :
    (w.confirm_deposit i).2 = w.balance + tx.amount ∧
    (w.confirm_deposit i).1.balance = w.balance + tx.amount ∧
    (w.confirm_deposit i).1.txs[i]? =
      some { tx with status := TxStatus.success,
                     balanceAfter := w.balance + tx.amount } ∧
    (w.confirm_deposit i).1.confirm_deposit i =
      ((w.confirm_deposit i).1, (w.confirm_deposit i).1.balance) ∧
    confirmN w i n = (w.confirm_deposit i).1 := by
  have hcd : w.confirm_deposit i =
      ({ balance := w.balance + tx.amount,
         txs := w.txs.set i { tx with status := TxStatus.success,
                                      balanceAfter := w.balance + tx.amount } },
       w.balance + tx.amount) := by
    unfold Wallet.confirm_deposit
    rw [htx]
    simp [hp]
  have hget : (w.confirm_deposit i).1.txs[i]? =
      some { tx with status := TxStatus.success,
                     balanceAfter := w.balance + tx.amount } := by
    rw [hcd]
    exact getElem?_set_same w.txs i tx _ htx
  have hnoop : (w.confirm_deposit i).1.confirm_deposit i =
      ((w.confirm_deposit i).1, (w.confirm_deposit i).1.balance) :=
    confirm_deposit_noop _ i _ hget (by simp)
  refine ⟨by rw [hcd], by rw [hcd], hget, hnoop, ?_⟩
  obtain ⟨m, rfl⟩ : ∃ m, n = m + 1 := ⟨n - 1, (Nat.succ_pred_eq_of_pos hn).symm⟩
  show confirmN (w.confirm_deposit i).1 i m = (w.confirm_deposit i).1
  exact confirmN_fix _ i (by rw [hnoop]) m

/-- Witness for C1 at a concrete input: balance 5, one pending deposit of 7,
three sequential confirmations credit once, to balance 12. -/
theorem confirm_deposit_idempotent_witness :
    (Wallet.confirm_deposit ⟨5, [⟨TxType.deposit, 7, 5, TxStatus.pending⟩]⟩ 0).2 =
      (5 : ℚ) + 7 ∧
    (Wallet.confirm_deposit ⟨5, [⟨TxType.deposit, 7, 5, TxStatus.pending⟩]⟩ 0).1.balance =
      (5 : ℚ) + 7 ∧
    (Wallet.confirm_deposit ⟨5, [⟨TxType.deposit, 7, 5, TxStatus.pending⟩]⟩ 0).1.txs[0]? =
      some ⟨TxType.deposit, 7, (5 : ℚ) + 7, TxStatus.success⟩ ∧
    (Wallet.confirm_deposit ⟨5, [⟨TxType.deposit, 7, 5, TxStatus.pending⟩]⟩ 0).1.confirm_deposit 0 =
      ((Wallet.confirm_deposit ⟨5, [⟨TxType.deposit, 7, 5, TxStatus.pending⟩]⟩ 0).1,
       (Wallet.confirm_deposit ⟨5, [⟨TxType.deposit, 7, 5, TxStatus.pending⟩]⟩ 0).1.balance) ∧
    confirmN ⟨5, [⟨TxType.deposit, 7, 5, TxStatus.pending⟩]⟩ 0 3 =
      (Wallet.confirm_deposit ⟨5, [⟨TxType.deposit, 7, 5, TxStatus.pending⟩]⟩ 0).1 :=
  confirm_deposit_idempotent ⟨5, [⟨TxType.deposit, 7, 5, TxStatus.pending⟩]⟩ 0
    ⟨TxType.deposit, 7, 5, TxStatus.pending⟩ 3 rfl rfl (by decide)

/-- Claim C3, counterexample: The claim quantifies over every amount and
asserts the created transaction's `amount` field is negative; at
`amount = 0` (balance 0) the charge succeeds — `balance < amount` is false —
and the recorded amount is `0`, which is not negative. -/
theorem charge_negative_amount_counterexample :
    Wallet.charge ⟨0, []⟩ 0 =
      Except.ok (⟨0, [⟨TxType.charge, 0, 0, TxStatus.success⟩]⟩, 0) ∧
    ¬ ((0 : ℚ) < 0) := by
  constructor
  · norm_num [Wallet.charge]
  · exact lt_irrefl 0

/-- Claim C3, amended: `charge` fails with the insufficient-funds error
exactly when `balance < amount`, and a failure carries no state (no balance
change, no transaction record); otherwise it debits the balance by `amount`
and appends exactly one `SUCCESS` charge transaction whose `amount` field is
`-amount` — negative whenever the charged amount is positive. -/
theorem charge_spec (w : Wallet) (a : ℚ) :
    (w.balance < a → w.charge a = Except.error "Insufficient balance") ∧
    (¬ w.balance < a →
      w.charge a = Except.ok
        ({ balance := w.balance - a,
           txs := w.txs ++ [⟨TxType.charge, -a, w.balance - a, TxStatus.success⟩] },
         w.balance - a)) ∧
    (0 < a → -a < 0) := by
  refine ⟨fun h => ?_, fun h => ?_, fun h => by linarith⟩
  · simp [Wallet.charge, h]
  · simp [Wallet.charge, h]

/-- Witness for C3 (amended) at concrete inputs: balance 1 cannot cover a
charge of 4; balance 10 charged 4 yields balance 6 and a `-4` transaction. -/
theorem charge_spec_witness :
    Wallet.charge ⟨1, []⟩ 4 = Except.error "Insufficient balance" ∧
    Wallet.charge ⟨10, []⟩ 4 =
      Except.ok (⟨10 - 4, [⟨TxType.charge, -4, 10 - 4, TxStatus.success⟩]⟩, 10 - 4) ∧
    -(4 : ℚ) < 0 :=
  ⟨(charge_spec ⟨1, []⟩ 4).1 (by norm_num),
   (charge_spec ⟨10, []⟩ 4).2.1 (by norm_num),
   (charge_spec ⟨10, []⟩ 4).2.2 (by norm_num)⟩

theorem place_order_failure_eq (w : Wallet) (c : ℚ) (pr : ProviderResult)
    (hb : ¬ w.balance < c) (hf : providerFailed pr) :
    placeOrder w c pr =
      ({ balance := w.balance - c + c,
         txs := (w.txs ++ [⟨TxType.charge, -c, w.balance - c, TxStatus.success⟩])
           ++ [⟨TxType.refund, c, w.balance - c + c, TxStatus.success⟩] },
       some ⟨"", OrderStatus.failed, c⟩) := by
  cases pr with
  | raised msg =>
    unfold placeOrder Wallet.charge Wallet.refund
    rw [if_neg hb, if_neg hb]
  | returned oid err =>
    cases oid with
    | some o => simp [providerFailed] at hf
    | none =>
      cases err with
      | none => simp [providerFailed] at hf
      | some e =>
        unfold placeOrder Wallet.charge Wallet.refund
        rw [if_neg hb, if_neg hb]

/-- Claim C4: When the provider call fails (a structured `error` in the
response, or `SMMProviderError` raised after the retry loop), order
placement nets to zero on the wallet: the final balance equals the balance
before the charge, the order ends `FAILED`, and exactly one `CHARGE` and one
`REFUND` transaction, each of the charge amount, are appended. -/
theorem place_order_provider_failure (w : Wallet) (c : ℚ) (pr : ProviderResult)
    (hb : ¬ w.balance < c) (hf : providerFailed pr) :
    (placeOrder w c pr).1.balance = w.balance ∧
    (placeOrder w c pr).2 = some ⟨"", OrderStatus.failed, c⟩ ∧
    (placeOrder w c pr).1.txs =
      w.txs ++ [⟨TxType.charge, -c, w.balance - c, TxStatus.success⟩,
                ⟨TxType.refund, c, w.balance - c + c, TxStatus.success⟩] := by
  rw [place_order_failure_eq w c pr hb hf]
  refine ⟨by ring, rfl, by simp⟩

/-- Witness for C4 at the spec's concrete scenario: balance 1000, charge
300, transport failure on all attempts (raised error) — balance back to
1000, order `FAILED`, one `CHARGE(-300)` and one `REFUND(+300)` appended. -/
theorem place_order_provider_failure_witness :
    (placeOrder ⟨1000, []⟩ 300 (ProviderResult.raised "Request timeout")).1.balance =
      (1000 : ℚ) ∧
    (placeOrder ⟨1000, []⟩ 300 (ProviderResult.raised "Request timeout")).2 =
      some ⟨"", OrderStatus.failed, 300⟩ ∧
    (placeOrder ⟨1000, []⟩ 300 (ProviderResult.raised "Request timeout")).1.txs =
      [] ++ [⟨TxType.charge, -300, (1000 : ℚ) - 300, TxStatus.success⟩,
             ⟨TxType.refund, 300, (1000 : ℚ) - 300 + 300, TxStatus.success⟩] :=
  place_order_provider_failure ⟨1000, []⟩ 300 (ProviderResult.raised "Request timeout")
    (by norm_num) trivial

/-- Claim C10: The admin cancel-and-refund path skips an order only when its
status is `completed`, `canceled` or `refunded`; a `FAILED` order — which,
when it failed at placement, was already refunded automatically — is
refunded `order.charge` again and set to `CANCELED`, so the one charge
yields two `REFUND` transactions of the charge amount and the wallet ends up
`+charge` over its balance before the order was placed. -/
theorem admin_cancel_refund_double_refund (w : Wallet) (c : ℚ) (msg : String)
    (hb : ¬ w.balance < c) :
    (placeOrder w c (ProviderResult.raised msg)).2 =
      some ⟨"", OrderStatus.failed, c⟩ ∧
    ¬ (OrderStatus.failed = OrderStatus.completed ∨
       OrderStatus.failed = OrderStatus.canceled ∨
       OrderStatus.failed = OrderStatus.refunded) ∧
    (adminCancelRefund (placeOrder w c (ProviderResult.raised msg)).1
        ⟨"", OrderStatus.failed, c⟩).2 = ⟨"", OrderStatus.canceled, c⟩ ∧
    (adminCancelRefund (placeOrder w c (ProviderResult.raised msg)).1
        ⟨"", OrderStatus.failed, c⟩).1.balance = w.balance + c ∧
    (adminCancelRefund (placeOrder w c (ProviderResult.raised msg)).1
        ⟨"", OrderStatus.failed, c⟩).1.txs =
      w.txs ++ [⟨TxType.charge, -c, w.balance - c, TxStatus.success⟩,
                ⟨TxType.refund, c, w.balance - c + c, TxStatus.success⟩,
                ⟨TxType.refund, c, w.balance + c, TxStatus.success⟩] := by
  rw [place_order_failure_eq w c (ProviderResult.raised msg) hb trivial]
  refine ⟨rfl, by decide, ?_, ?_, ?_⟩ <;>
    simp only [adminCancelRefund, Wallet.refund] <;>
    rw [if_neg (by decide)]
  · show w.balance - c + c + c = w.balance + c
    ring
  · show ((w.txs ++ [_]) ++ [_]) ++ [(⟨TxType.refund, c, w.balance - c + c + c,
      TxStatus.success⟩ : Txn)] = _
    have e : w.balance - c + c + c = w.balance + c := by ring
    rw [e]
    simp

/-- Witness for C10 at a concrete input: balance 500, charge 200, provider
raises; the admin path refunds the already-refunded order again, ending at
balance 700 with two `REFUND(+200)` transactions. -/
theorem admin_cancel_refund_double_refund_witness :
    (placeOrder ⟨500, []⟩ 200 (ProviderResult.raised "provider down")).2 =
      some ⟨"", OrderStatus.failed, 200⟩ ∧
    ¬ (OrderStatus.failed = OrderStatus.completed ∨
       OrderStatus.failed = OrderStatus.canceled ∨
       OrderStatus.failed = OrderStatus.refunded) ∧
    (adminCancelRefund (placeOrder ⟨500, []⟩ 200 (ProviderResult.raised "provider down")).1
        ⟨"", OrderStatus.failed, 200⟩).2 = ⟨"", OrderStatus.canceled, 200⟩ ∧
    (adminCancelRefund (placeOrder ⟨500, []⟩ 200 (ProviderResult.raised "provider down")).1
        ⟨"", OrderStatus.failed, 200⟩).1.balance = (500 : ℚ) + 200 ∧
    (adminCancelRefund (placeOrder ⟨500, []⟩ 200 (ProviderResult.raised "provider down")).1
        ⟨"", OrderStatus.failed, 200⟩).1.txs =
      [] ++ [⟨TxType.charge, -200, (500 : ℚ) - 200, TxStatus.success⟩,
             ⟨TxType.refund, 200, (500 : ℚ) - 200 + 200, TxStatus.success⟩,
             ⟨TxType.refund, 200, (500 : ℚ) + 200, TxStatus.success⟩] :=
  admin_cancel_refund_double_refund ⟨500, []⟩ 200 "provider down" (by norm_num)

theorem quantize4_double_bound (x : ℚ) :
    |quantize4 (2 * x) - 2 * quantize4 x| ≤ 1 / 10000 := by
  have harg : (2 * x) * 10000 = 2 * (x * 10000) := by ring
  have hb := rhe_double_bound (x * 10000)
  have hbq : |((rhe (2 * (x * 10000)) : ℤ) : ℚ) - 2 * ((rhe (x * 10000) : ℤ) : ℚ)| ≤ 1 := by
    exact_mod_cast hb
  unfold quantize4
  rw [harg]
  have e : ((rhe (2 * (x * 10000)) : ℤ) : ℚ) / 10000
        - 2 * (((rhe (x * 10000) : ℤ) : ℚ) / 10000)
      = (((rhe (2 * (x * 10000)) : ℤ) : ℚ) - 2 * ((rhe (x * 10000) : ℤ) : ℚ)) / 10000 := by
    ring
  rw [e, abs_div, abs_of_pos (by norm_num : (0 : ℚ) < 10000)]
  gcongr

/-- Claim C9: `calculate_order_profit` equals
`(userRate/1000)*quantity − (providerRate/1000)*quantity` rounded (half-even)
to 4 decimal places, and is linear in the quantity up to one unit in the
fourth decimal place: doubling the quantity changes the profit by at most
`0.0001` relative to doubling the result. -/
theorem order_profit_linear (P U : ℚ) (Q : ℤ) :
    calculate_order_profit P U Q = quantize4 ((U / 1000) * Q - (P / 1000) * Q) ∧
    |calculate_order_profit P U (2 * Q) - 2 * calculate_order_profit P U Q| ≤ 1 / 10000 := by
  refine ⟨rfl, ?_⟩
  have harg : ((U / 1000) * ((2 * Q : ℤ) : ℚ) - (P / 1000) * ((2 * Q : ℤ) : ℚ))
      = 2 * ((U / 1000) * (Q : ℚ) - (P / 1000) * (Q : ℚ)) := by push_cast; ring
  unfold calculate_order_profit
  rw [harg]
  exact quantize4_double_bound _

theorem applyMarkupRules_service_fixed (pr : ℚ) (s : ServiceRec) (cat : Option ℕ)
    (plat : String) (rules : List MarkupRule) (r0 : MarkupRule)
    (h : rules.find? (serviceFixedHit s) = some r0) :
    ∀ ap af, applyMarkupRules pr (some s) cat plat ap af rules =
      Sum.inl (pr + r0.fixed_addition) := by
  induction rules with
  | nil => simp at h
  | cons r rest ih =>
    intro ap af
    by_cases hsf : serviceFixedHit s r = true
    · rw [List.find?_cons_of_pos _ hsf] at h
      simp only [Option.some.injEq] at h
      subst h
      simp only [serviceFixedHit, Bool.and_eq_true, beq_iff_eq,
        decide_eq_true_eq] at hsf
      obtain ⟨⟨hl, hid⟩, hfx⟩ := hsf
      simp only [applyMarkupRules]
      rw [hl]
      simp only [if_pos hid, if_pos hfx]
    · rw [List.find?_cons_of_neg _ (by simp [hsf])] at h
      simp only [applyMarkupRules]
      cases hlv : r.level with
      | serviceLevel =>
        by_cases hid : r.service_id = some s.id
        · by_cases hfx : (0 : ℚ) < r.fixed_addition
          · exact absurd (by simp [serviceFixedHit, hlv, hid, hfx]) hsf
          · simp only [if_pos hid, if_neg hfx]
            exact ih h _ _
        · simp only [if_neg hid]
          exact ih h _ _
      | categoryLevel =>
        cases cat with
        | none => exact ih h _ _
        | some cid =>
          by_cases hc : r.category_id = some cid
          · simp only [if_pos hc]; exact ih h _ _
          · simp only [if_neg hc]; exact ih h _ _
      | platformLevel =>
        by_cases hp : plat ≠ "" ∧ r.platform.toLower = plat.toLower
        · simp only [if_pos hp]; exact ih h _ _
        · simp only [if_neg hp]; exact ih h _ _
      | globalLevel => exact ih h _ _

/-- Claim C6: If the active rules (in descending-priority order) contain a
service-level rule matching the given service with a positive
`fixed_addition`, `calculate_user_rate` returns
`provider_rate + fixed_addition` of the first (highest-priority) such rule,
regardless of any other active rules; no percentage, quantization, or other
level is applied. -/
theorem service_fixed_short_circuit (pr : ℚ) (s : ServiceRec) (cn plat : String)
    (rules : List MarkupRule) (r0 : MarkupRule)
    (h : rules.find? (serviceFixedHit s) = some r0) :
    calculate_user_rate pr (some s) cn plat rules = pr + r0.fixed_addition := by
  unfold calculate_user_rate
  rw [applyMarkupRules_service_fixed pr s _ _ rules r0 h]

/-- Witness for C6 at the spec's scenario: a highest-priority service-level
rule with `fixed_addition = 2` on provider rate 10 yields 12 even though a
global rule (20%) is also active. -/
theorem service_fixed_short_circuit_witness :
    calculate_user_rate 10 (some ⟨1, none⟩) "" ""
      [⟨RuleLevel.serviceLevel, "", none, some 1, 0, 2⟩,
       ⟨RuleLevel.globalLevel, "", none, none, 20, 0⟩] = 10 + 2 :=
  service_fixed_short_circuit 10 ⟨1, none⟩ "" ""
    [⟨RuleLevel.serviceLevel, "", none, some 1, 0, 2⟩,
     ⟨RuleLevel.globalLevel, "", none, none, 20, 0⟩]
    ⟨RuleLevel.serviceLevel, "", none, some 1, 0, 2⟩ (by decide)

theorem rhe_intCast (n : ℤ) : rhe ((n : ℚ)) = n := by
  unfold rhe
  rw [Int.floor_intCast, if_pos (by norm_num)]

theorem quantize4_intCast (n : ℤ) : quantize4 ((n : ℚ)) = n := by
  unfold quantize4
  have e : ((n : ℚ)) * 10000 = ((n * 10000 : ℤ) : ℚ) := by push_cast; ring
  rw [e, rhe_intCast]
  push_cast
  field_simp

/-- Claim C5, counterexample: A matching service-level rule (percentage 10,
highest priority) together with a matching category-level rule
(percentage 20): under the claim's strict precedence the category rule must
not contribute (the service level already set a non-zero percentage), giving
110; the code max-merges across the two levels and returns 120. -/
theorem markup_precedence_counterexample :
    calculate_user_rate 100 (some ⟨1, some 7⟩) "" ""
      [⟨RuleLevel.serviceLevel, "", none, some 1, 10, 0⟩,
       ⟨RuleLevel.categoryLevel, "", some 7, none, 20, 0⟩] = 120 ∧
    specUserRate 100 (some ⟨1, some 7⟩) "" ""
      [⟨RuleLevel.serviceLevel, "", none, some 1, 10, 0⟩,
       ⟨RuleLevel.categoryLevel, "", some 7, none, 20, 0⟩] = 110 ∧
    (120 : ℚ) ≠ 110 := by
  have h120 : quantize4 (120 : ℚ) = 120 := by exact_mod_cast quantize4_intCast 120
  have h110 : quantize4 (110 : ℚ) = 110 := by exact_mod_cast quantize4_intCast 110
  refine ⟨?_, ?_, by norm_num⟩
  · have e : calculate_user_rate 100 (some ⟨1, some 7⟩) "" ""
        [⟨RuleLevel.serviceLevel, "", none, some 1, 10, 0⟩,
         ⟨RuleLevel.categoryLevel, "", some 7, none, 20, 0⟩] = quantize4 120 := by
      simp only [calculate_user_rate, applyMarkupRules, derivedCat, derivedPlat]
      norm_num [max_def]
    rw [e, h120]
  · have e : specUserRate 100 (some ⟨1, some 7⟩) "" ""
        [⟨RuleLevel.serviceLevel, "", none, some 1, 10, 0⟩,
         ⟨RuleLevel.categoryLevel, "", some 7, none, 20, 0⟩] = quantize4 110 := by
      simp only [specUserRate, maxPercAt, maxFixedAt, firstNonZero, levelHit,
        derivedCat, derivedPlat, List.filter, List.foldr]
      norm_num [max_def]
    rw [e, h110]

theorem maxPercOf_cons (svc : Option ServiceRec) (cat : Option ℕ) (plat : String)
    (r : MarkupRule) (rest : List MarkupRule) :
    maxPercOf svc cat plat (r :: rest) =
      if percHit svc cat plat r then max r.percentage (maxPercOf svc cat plat rest)
      else maxPercOf svc cat plat rest := rfl

theorem maxFixedOf_cons (svc : Option ServiceRec) (cat : Option ℕ) (plat : String)
    (r : MarkupRule) (rest : List MarkupRule) :
    maxFixedOf svc cat plat (r :: rest) =
      if fixedHit svc cat plat r then max r.fixed_addition (maxFixedOf svc cat plat rest)
      else maxFixedOf svc cat plat rest := rfl

theorem maxPercOf_nonneg (svc : Option ServiceRec) (cat : Option ℕ) (plat : String)
    (rules : List MarkupRule) : 0 ≤ maxPercOf svc cat plat rules := by
  induction rules with
  | nil => exact le_refl 0
  | cons r rest ih =>
    rw [maxPercOf_cons]
    split_ifs
    · exact le_trans ih (le_max_right _ _)
    · exact ih

theorem maxFixedOf_nonneg (svc : Option ServiceRec) (cat : Option ℕ) (plat : String)
    (rules : List MarkupRule) : 0 ≤ maxFixedOf svc cat plat rules := by
  induction rules with
  | nil => exact le_refl 0
  | cons r rest ih =>
    rw [maxFixedOf_cons]
    split_ifs
    · exact le_trans ih (le_max_right _ _)
    · exact ih

theorem globalPerc_cons (svc : Option ServiceRec) (cat : Option ℕ) (plat : String)
    (r : MarkupRule) (rest : List MarkupRule) :
    globalPerc svc cat plat (r :: rest) =
      if r.level = RuleLevel.globalLevel then
        if 0 < r.percentage then r.percentage else globalPerc svc cat plat rest
      else if percHit svc cat plat r = true ∧ 0 < r.percentage then 0
      else globalPerc svc cat plat rest := rfl

theorem globalFixed_cons (svc : Option ServiceRec) (cat : Option ℕ) (plat : String)
    (r : MarkupRule) (rest : List MarkupRule) :
    globalFixed svc cat plat (r :: rest) =
      if r.level = RuleLevel.globalLevel then
        if 0 < r.fixed_addition then r.fixed_addition else globalFixed svc cat plat rest
      else if fixedHit svc cat plat r = true ∧ 0 < r.fixed_addition then 0
      else globalFixed svc cat plat rest := rfl

theorem globalPerc_nonneg (svc : Option ServiceRec) (cat : Option ℕ) (plat : String)
    (rules : List MarkupRule) : 0 ≤ globalPerc svc cat plat rules := by
  induction rules with
  | nil => exact le_refl 0
  | cons r rest ih =>
    rw [globalPerc_cons]
    split_ifs with h1 h2 h3
    · exact le_of_lt h2
    · exact ih
    · exact le_refl 0
    · exact ih

theorem globalFixed_nonneg (svc : Option ServiceRec) (cat : Option ℕ) (plat : String)
    (rules : List MarkupRule) : 0 ≤ globalFixed svc cat plat rules := by
  induction rules with
  | nil => exact le_refl 0
  | cons r rest ih =>
    rw [globalFixed_cons]
    split_ifs with h1 h2 h3
    · exact le_of_lt h2
    · exact ih
    · exact le_refl 0
    · exact ih

theorem maxPercOf_cons_hit (svc : Option ServiceRec) (cat : Option ℕ) (plat : String)
    (r : MarkupRule) (rest : List MarkupRule) (h : percHit svc cat plat r = true) :
    maxPercOf svc cat plat (r :: rest) =
      max r.percentage (maxPercOf svc cat plat rest) := by
  rw [maxPercOf_cons, if_pos h]

theorem maxPercOf_cons_unhit (svc : Option ServiceRec) (cat : Option ℕ) (plat : String)
    (r : MarkupRule) (rest : List MarkupRule) (h : percHit svc cat plat r = false) :
    maxPercOf svc cat plat (r :: rest) = maxPercOf svc cat plat rest := by
  rw [maxPercOf_cons, if_neg (by simp [h])]

theorem maxFixedOf_cons_hit (svc : Option ServiceRec) (cat : Option ℕ) (plat : String)
    (r : MarkupRule) (rest : List MarkupRule) (h : fixedHit svc cat plat r = true) :
    maxFixedOf svc cat plat (r :: rest) =
      max r.fixed_addition (maxFixedOf svc cat plat rest) := by
  rw [maxFixedOf_cons, if_pos h]

theorem maxFixedOf_cons_unhit (svc : Option ServiceRec) (cat : Option ℕ) (plat : String)
    (r : MarkupRule) (rest : List MarkupRule) (h : fixedHit svc cat plat r = false) :
    maxFixedOf svc cat plat (r :: rest) = maxFixedOf svc cat plat rest := by
  rw [maxFixedOf_cons, if_neg (by simp [h])]

theorem globalPerc_cons_nonglobal (svc : Option ServiceRec) (cat : Option ℕ)
    (plat : String) (r : MarkupRule) (rest : List MarkupRule)
    (hlv : ¬ r.level = RuleLevel.globalLevel) :
    globalPerc svc cat plat (r :: rest) =
      if percHit svc cat plat r = true ∧ 0 < r.percentage then 0
      else globalPerc svc cat plat rest := by
  rw [globalPerc_cons, if_neg hlv]

theorem globalFixed_cons_nonglobal (svc : Option ServiceRec) (cat : Option ℕ)
    (plat : String) (r : MarkupRule) (rest : List MarkupRule)
    (hlv : ¬ r.level = RuleLevel.globalLevel) :
    globalFixed svc cat plat (r :: rest) =
      if fixedHit svc cat plat r = true ∧ 0 < r.fixed_addition then 0
      else globalFixed svc cat plat rest := by
  rw [globalFixed_cons, if_neg hlv]

/-- How one accumulator component changes over a contributing (max-merging)
rule, in closed form: merge the rule's value into the running maximum, and
lock global adoption out when the value is positive. -/
theorem accum_hit (a p M G : ℚ) (ha : 0 ≤ a) (hp : 0 ≤ p) (hM : 0 ≤ M) :
    (if max a p = 0 then max M G else max (max a p) M) =
    (if a = 0 then max (max p M) (if 0 < p then 0 else G) else max a (max p M)) := by
  by_cases ha0 : a = 0
  · rw [ha0, max_eq_right hp, if_pos rfl]
    by_cases hpp : 0 < p
    · rw [if_neg (ne_of_gt hpp), if_pos hpp,
        max_eq_left (le_trans hM (le_max_right p M))]
    · have hp0 : p = 0 := le_antisymm (not_lt.mp hpp) hp
      rw [hp0, if_pos rfl, if_neg (lt_irrefl (0 : ℚ)), max_eq_right hM]
  · have hapos : 0 < a := lt_of_le_of_ne ha (Ne.symm ha0)
    have h1 : ¬ (max a p = 0) :=
      ne_of_gt (lt_of_lt_of_le hapos (le_max_left a p))
    rw [if_neg h1, if_neg ha0, max_assoc]

/-- How one accumulator component changes over a global rule, in closed
form: adopted only while the accumulator is still zero, and a zero-valued
adoption leaves the accumulator open for later global rules. -/
theorem accum_global (a p M G : ℚ) (_ha : 0 ≤ a) (hp : 0 ≤ p) :
    (if (if a = 0 then p else a) = 0 then max M G
     else max (if a = 0 then p else a) M) =
    (if a = 0 then max M (if 0 < p then p else G) else max a M) := by
  by_cases ha0 : a = 0
  · simp only [if_pos ha0]
    by_cases hpp : 0 < p
    · rw [if_neg (ne_of_gt hpp), if_pos hpp]
      exact max_comm p M
    · have hp0 : p = 0 := le_antisymm (not_lt.mp hpp) hp
      rw [hp0, if_pos rfl, if_neg (lt_irrefl (0 : ℚ))]
  · simp only [if_neg ha0]

/-- With no service-level fixed-addition short-circuit and non-negative
markup values, the rule loop computes, for each component independently,
the maximum of the matching non-global contributions and the adopted
global contribution — the closed form of the zero-gated global fill. -/
theorem applyMarkupRules_closed (pr : ℚ) (svc : Option ServiceRec) (cat : Option ℕ)
    (plat : String) (rules : List MarkupRule)
    (hs : ∀ r ∈ rules, serviceFixedHitO svc r = false)
    (hnn : ∀ r ∈ rules, 0 ≤ r.percentage ∧ 0 ≤ r.fixed_addition) :
    ∀ ap af, 0 ≤ ap → 0 ≤ af →
      applyMarkupRules pr svc cat plat ap af rules =
        Sum.inr
          ((if ap = 0
            then max (maxPercOf svc cat plat rules) (globalPerc svc cat plat rules)
            else max ap (maxPercOf svc cat plat rules)),
           (if af = 0
            then max (maxFixedOf svc cat plat rules) (globalFixed svc cat plat rules)
            else max af (maxFixedOf svc cat plat rules))) := by
  induction rules with
  | nil =>
    intro ap af hap haf
    have e1 : (if ap = 0 then max (0 : ℚ) 0 else max ap 0) = ap := by
      split_ifs with h
      · simp [h]
      · exact max_eq_left hap
    have e2 : (if af = 0 then max (0 : ℚ) 0 else max af 0) = af := by
      split_ifs with h
      · simp [h]
      · exact max_eq_left haf
    show Sum.inr (ap, af) = _
    rw [show maxPercOf svc cat plat [] = 0 from rfl,
      show maxFixedOf svc cat plat [] = 0 from rfl,
      show globalPerc svc cat plat [] = 0 from rfl,
      show globalFixed svc cat plat [] = 0 from rfl, e1, e2]
  | cons r rest ih =>
    intro ap af hap haf
    have hs' : ∀ x ∈ rest, serviceFixedHitO svc x = false :=
      fun x hx => hs x (List.mem_cons_of_mem _ hx)
    have hnn' : ∀ x ∈ rest, 0 ≤ x.percentage ∧ 0 ≤ x.fixed_addition :=
      fun x hx => hnn x (List.mem_cons_of_mem _ hx)
    have hsr : serviceFixedHitO svc r = false := hs r (List.mem_cons_self _ _)
    obtain ⟨hpnn, hfnn⟩ := hnn r (List.mem_cons_self _ _)
    have hM := maxPercOf_nonneg svc cat plat rest
    have hF := maxFixedOf_nonneg svc cat plat rest
    simp only [applyMarkupRules]
    cases hlv : r.level with
    | globalLevel =>
      have hPH : percHit svc cat plat r = false := by simp [percHit, levelHit, hlv]
      have hFH : fixedHit svc cat plat r = false := by simp [fixedHit, levelHit, hlv]
      try simp only []
      rw [ih hs' hnn' _ _ (by split_ifs <;> assumption) (by split_ifs <;> assumption),
        maxPercOf_cons_unhit svc cat plat r rest hPH,
        maxFixedOf_cons_unhit svc cat plat r rest hFH,
        globalPerc_cons, globalFixed_cons, if_pos hlv, if_pos hlv]
      simp only [Sum.inr.injEq, Prod.mk.injEq]
      exact ⟨accum_global ap r.percentage _ _ hap hpnn,
        accum_global af r.fixed_addition _ _ haf hfnn⟩
    | serviceLevel =>
      have hFH : fixedHit svc cat plat r = false := by simp [fixedHit, levelHit, hlv]
      have hng : ¬ r.level = RuleLevel.globalLevel := by simp [hlv]
      have hGFe : globalFixed svc cat plat (r :: rest) = globalFixed svc cat plat rest := by
        rw [globalFixed_cons_nonglobal svc cat plat r rest hng,
          if_neg (by simp [hFH])]
      cases svc with
      | none =>
        have hPH : percHit none cat plat r = false := by simp [percHit, levelHit, hlv]
        have hGPe : globalPerc none cat plat (r :: rest) =
            globalPerc none cat plat rest := by
          rw [globalPerc_cons_nonglobal none cat plat r rest hng,
            if_neg (by simp [hPH])]
        try simp only []
        rw [ih hs' hnn' ap af hap haf,
          maxPercOf_cons_unhit none cat plat r rest hPH,
          maxFixedOf_cons_unhit none cat plat r rest hFH, hGPe, hGFe]
      | some s =>
        by_cases hid : r.service_id = some s.id
        · have hfx : ¬ (0 : ℚ) < r.fixed_addition := by
            intro hpos
            have ht : serviceFixedHitO (some s) r = true := by
              simp [serviceFixedHitO, serviceFixedHit, hlv, hid, hpos]
            rw [hsr] at ht
            exact Bool.false_ne_true ht
          have hPH : percHit (some s) cat plat r = true := by
            simp [percHit, levelHit, hlv, hid]
          have hGPe : globalPerc (some s) cat plat (r :: rest) =
              if 0 < r.percentage then 0 else globalPerc (some s) cat plat rest := by
            rw [globalPerc_cons_nonglobal (some s) cat plat r rest hng]
            by_cases hpp : 0 < r.percentage
            · rw [if_pos ⟨hPH, hpp⟩, if_pos hpp]
            · rw [if_neg (fun hc => hpp hc.2), if_neg hpp]
          simp only [if_pos hid, if_neg hfx]
          rw [ih hs' hnn' (max ap r.percentage) af
              (le_trans hap (le_max_left _ _)) haf,
            maxPercOf_cons_hit (some s) cat plat r rest hPH,
            maxFixedOf_cons_unhit (some s) cat plat r rest hFH, hGPe, hGFe]
          simp only [Sum.inr.injEq, Prod.mk.injEq]
          exact ⟨accum_hit ap r.percentage _ _ hap hpnn hM, trivial⟩
        · have hPH : percHit (some s) cat plat r = false := by
            simp [percHit, levelHit, hlv, hid]
          have hGPe : globalPerc (some s) cat plat (r :: rest) =
              globalPerc (some s) cat plat rest := by
            rw [globalPerc_cons_nonglobal (some s) cat plat r rest hng,
              if_neg (by simp [hPH])]
          simp only [if_neg hid]
          rw [ih hs' hnn' ap af hap haf,
            maxPercOf_cons_unhit (some s) cat plat r rest hPH,
            maxFixedOf_cons_unhit (some s) cat plat r rest hFH, hGPe, hGFe]
    | categoryLevel =>
      have hng : ¬ r.level = RuleLevel.globalLevel := by simp [hlv]
      cases cat with
      | none =>
        have hPH : percHit svc none plat r = false := by simp [percHit, levelHit, hlv]
        have hFH : fixedHit svc none plat r = false := by simp [fixedHit, levelHit, hlv]
        have hGPe : globalPerc svc none plat (r :: rest) =
            globalPerc svc none plat rest := by
          rw [globalPerc_cons_nonglobal svc none plat r rest hng,
            if_neg (by simp [hPH])]
        have hGFe : globalFixed svc none plat (r :: rest) =
            globalFixed svc none plat rest := by
          rw [globalFixed_cons_nonglobal svc none plat r rest hng,
            if_neg (by simp [hFH])]
        try simp only []
        rw [ih hs' hnn' ap af hap haf,
          maxPercOf_cons_unhit svc none plat r rest hPH,
          maxFixedOf_cons_unhit svc none plat r rest hFH, hGPe, hGFe]
      | some cid =>
        by_cases hc : r.category_id = some cid
        · have hPH : percHit svc (some cid) plat r = true := by
            simp [percHit, levelHit, hlv, hc]
          have hFH : fixedHit svc (some cid) plat r = true := by
            simp [fixedHit, levelHit, hlv, hc]
          have hGPe : globalPerc svc (some cid) plat (r :: rest) =
              if 0 < r.percentage then 0 else globalPerc svc (some cid) plat rest := by
            rw [globalPerc_cons_nonglobal svc (some cid) plat r rest hng]
            by_cases hpp : 0 < r.percentage
            · rw [if_pos ⟨hPH, hpp⟩, if_pos hpp]
            · rw [if_neg (fun hcj => hpp hcj.2), if_neg hpp]
          have hGFe : globalFixed svc (some cid) plat (r :: rest) =
              if 0 < r.fixed_addition then 0
              else globalFixed svc (some cid) plat rest := by
            rw [globalFixed_cons_nonglobal svc (some cid) plat r rest hng]
            by_cases hpf : 0 < r.fixed_addition
            · rw [if_pos ⟨hFH, hpf⟩, if_pos hpf]
            · rw [if_neg (fun hcj => hpf hcj.2), if_neg hpf]
          simp only [if_pos hc]
          rw [ih hs' hnn' (max ap r.percentage) (max af r.fixed_addition)
              (le_trans hap (le_max_left _ _)) (le_trans haf (le_max_left _ _)),
            maxPercOf_cons_hit svc (some cid) plat r rest hPH,
            maxFixedOf_cons_hit svc (some cid) plat r rest hFH, hGPe, hGFe]
          simp only [Sum.inr.injEq, Prod.mk.injEq]
          exact ⟨accum_hit ap r.percentage _ _ hap hpnn hM,
            accum_hit af r.fixed_addition _ _ haf hfnn hF⟩
        · have hPH : percHit svc (some cid) plat r = false := by
            simp [percHit, levelHit, hlv, hc]
          have hFH : fixedHit svc (some cid) plat r = false := by
            simp [fixedHit, levelHit, hlv, hc]
          have hGPe : globalPerc svc (some cid) plat (r :: rest) =
              globalPerc svc (some cid) plat rest := by
            rw [globalPerc_cons_nonglobal svc (some cid) plat r rest hng,
              if_neg (by simp [hPH])]
          have hGFe : globalFixed svc (some cid) plat (r :: rest) =
              globalFixed svc (some cid) plat rest := by
            rw [globalFixed_cons_nonglobal svc (some cid) plat r rest hng,
              if_neg (by simp [hFH])]
          simp only [if_neg hc]
          rw [ih hs' hnn' ap af hap haf,
            maxPercOf_cons_unhit svc (some cid) plat r rest hPH,
            maxFixedOf_cons_unhit svc (some cid) plat r rest hFH, hGPe, hGFe]
    | platformLevel =>
      have hng : ¬ r.level = RuleLevel.globalLevel := by simp [hlv]
      by_cases hp : plat ≠ "" ∧ r.platform.toLower = plat.toLower
      · have hPH : percHit svc cat plat r = true := by
          simp [percHit, levelHit, hlv, hp.1, hp.2]
        have hFH : fixedHit svc cat plat r = true := by
          simp [fixedHit, levelHit, hlv, hp.1, hp.2]
        have hGPe : globalPerc svc cat plat (r :: rest) =
            if 0 < r.percentage then 0 else globalPerc svc cat plat rest := by
          rw [globalPerc_cons_nonglobal svc cat plat r rest hng]
          by_cases hpp : 0 < r.percentage
          · rw [if_pos ⟨hPH, hpp⟩, if_pos hpp]
          · rw [if_neg (fun hcj => hpp hcj.2), if_neg hpp]
        have hGFe : globalFixed svc cat plat (r :: rest) =
            if 0 < r.fixed_addition then 0 else globalFixed svc cat plat rest := by
          rw [globalFixed_cons_nonglobal svc cat plat r rest hng]
          by_cases hpf : 0 < r.fixed_addition
          · rw [if_pos ⟨hFH, hpf⟩, if_pos hpf]
          · rw [if_neg (fun hcj => hpf hcj.2), if_neg hpf]
        simp only [if_pos hp]
        rw [ih hs' hnn' (max ap r.percentage) (max af r.fixed_addition)
            (le_trans hap (le_max_left _ _)) (le_trans haf (le_max_left _ _)),
          maxPercOf_cons_hit svc cat plat r rest hPH,
          maxFixedOf_cons_hit svc cat plat r rest hFH, hGPe, hGFe]
        simp only [Sum.inr.injEq, Prod.mk.injEq]
        exact ⟨accum_hit ap r.percentage _ _ hap hpnn hM,
          accum_hit af r.fixed_addition _ _ haf hfnn hF⟩
      · have hPH : percHit svc cat plat r = false := by
          by_cases hpe : plat = ""
          · simp [percHit, levelHit, hlv, hpe]
          · have hne : ¬ r.platform.toLower = plat.toLower := fun he => hp ⟨hpe, he⟩
            simp [percHit, levelHit, hlv, hpe, hne]
        have hFH : fixedHit svc cat plat r = false := by
          by_cases hpe : plat = ""
          · simp [fixedHit, levelHit, hlv, hpe]
          · have hne : ¬ r.platform.toLower = plat.toLower := fun he => hp ⟨hpe, he⟩
            simp [fixedHit, levelHit, hlv, hpe, hne]
        have hGPe : globalPerc svc cat plat (r :: rest) =
            globalPerc svc cat plat rest := by
          rw [globalPerc_cons_nonglobal svc cat plat r rest hng,
            if_neg (by simp [hPH])]
        have hGFe : globalFixed svc cat plat (r :: rest) =
            globalFixed svc cat plat rest := by
          rw [globalFixed_cons_nonglobal svc cat plat r rest hng,
            if_neg (by simp [hFH])]
        simp only [if_neg hp]
        rw [ih hs' hnn' ap af hap haf,
          maxPercOf_cons_unhit svc cat plat r rest hPH,
          maxFixedOf_cons_unhit svc cat plat r rest hFH, hGPe, hGFe]

/-- Claim C5, amended: When no service-level fixed-addition short-circuit
applies and all active rules carry non-negative percentage and fixed
addition, `calculate_user_rate` applies `pr * (1 + P/100) + F` (quantized
to 4 places, each factor only when its component is positive), where `P` is
the maximum of the percentages of all matching service-, category- and
platform-level rules and of the adopted global percentage, and `F` is the
maximum of the fixed additions of all matching category- and platform-level
rules (service-level rules never contribute a fixed addition) and of the
adopted global fixed addition.  Matching rules of the three non-global
levels combine by running maximum with no cross-level precedence; a global
rule's component is adopted only while the corresponding accumulator is
still zero when the rule is scanned in descending priority — that is, only
when no positive contribution of that component precedes it — as made
precise by `globalPerc`/`globalFixed`. -/
theorem markup_accumulation (pr : ℚ) (svc : Option ServiceRec)
    (cn plat : String) (rules : List MarkupRule)
    (hs : ∀ r ∈ rules, serviceFixedHitO svc r = false)
    (hnn : ∀ r ∈ rules, 0 ≤ r.percentage ∧ 0 ≤ r.fixed_addition) :
    calculate_user_rate pr svc cn plat rules =
      quantize4
        ((if 0 < max (maxPercOf svc (derivedCat svc) (derivedPlat cn plat) rules)
                  (globalPerc svc (derivedCat svc) (derivedPlat cn plat) rules)
          then pr * (1 +
            max (maxPercOf svc (derivedCat svc) (derivedPlat cn plat) rules)
              (globalPerc svc (derivedCat svc) (derivedPlat cn plat) rules) / 100)
          else pr) +
         (if 0 < max (maxFixedOf svc (derivedCat svc) (derivedPlat cn plat) rules)
                  (globalFixed svc (derivedCat svc) (derivedPlat cn plat) rules)
          then max (maxFixedOf svc (derivedCat svc) (derivedPlat cn plat) rules)
                 (globalFixed svc (derivedCat svc) (derivedPlat cn plat) rules)
          else 0)) := by
  unfold calculate_user_rate
  rw [applyMarkupRules_closed pr svc (derivedCat svc) (derivedPlat cn plat)
      rules hs hnn 0 0 le_rfl le_rfl,
    if_pos (rfl : (0 : ℚ) = 0), if_pos (rfl : (0 : ℚ) = 0)]
  refine congrArg quantize4 ?_
  split_ifs <;> ring

/-- Witness for C5 (amended) with a global rule active: service 10% and
category 20% max-merge to P = 20% (the positive service percentage locks
the global 50% out), while the global rule's fixed addition 3 is adopted
(no earlier positive fixed contribution), so provider rate 100 becomes
100 * 1.2 + 3 = 123. -/
theorem markup_accumulation_witness :
    calculate_user_rate 100 (some ⟨1, some 7⟩) "" ""
      [⟨RuleLevel.serviceLevel, "", none, some 1, 10, 0⟩,
       ⟨RuleLevel.categoryLevel, "", some 7, none, 20, 0⟩,
       ⟨RuleLevel.globalLevel, "", none, none, 50, 3⟩] = 123 := by
  have h123 : quantize4 (123 : ℚ) = 123 := by exact_mod_cast quantize4_intCast 123
  rw [markup_accumulation 100 (some ⟨1, some 7⟩) "" ""
    [⟨RuleLevel.serviceLevel, "", none, some 1, 10, 0⟩,
     ⟨RuleLevel.categoryLevel, "", some 7, none, 20, 0⟩,
     ⟨RuleLevel.globalLevel, "", none, none, 50, 3⟩] (by decide) (by decide)]
  rw [show maxPercOf (some ⟨1, some 7⟩) (derivedCat (some ⟨1, some 7⟩))
      (derivedPlat "" "")
      [⟨RuleLevel.serviceLevel, "", none, some 1, 10, 0⟩,
       ⟨RuleLevel.categoryLevel, "", some 7, none, 20, 0⟩,
       ⟨RuleLevel.globalLevel, "", none, none, 50, 3⟩] = 20 from by decide]
  rw [show globalPerc (some ⟨1, some 7⟩) (derivedCat (some ⟨1, some 7⟩))
      (derivedPlat "" "")
      [⟨RuleLevel.serviceLevel, "", none, some 1, 10, 0⟩,
       ⟨RuleLevel.categoryLevel, "", some 7, none, 20, 0⟩,
       ⟨RuleLevel.globalLevel, "", none, none, 50, 3⟩] = 0 from by decide]
  rw [show maxFixedOf (some ⟨1, some 7⟩) (derivedCat (some ⟨1, some 7⟩))
      (derivedPlat "" "")
      [⟨RuleLevel.serviceLevel, "", none, some 1, 10, 0⟩,
       ⟨RuleLevel.categoryLevel, "", some 7, none, 20, 0⟩,
       ⟨RuleLevel.globalLevel, "", none, none, 50, 3⟩] = 0 from by decide]
  rw [show globalFixed (some ⟨1, some 7⟩) (derivedCat (some ⟨1, some 7⟩))
      (derivedPlat "" "")
      [⟨RuleLevel.serviceLevel, "", none, some 1, 10, 0⟩,
       ⟨RuleLevel.categoryLevel, "", some 7, none, 20, 0⟩,
       ⟨RuleLevel.globalLevel, "", none, none, 50, 3⟩] = 3 from by decide]
  norm_num [max_def, h123]
theorem str_append_ne_empty (s t : String) (h : s.length ≠ 0) : s ++ t ≠ "" := by
  intro he
  have hl := congrArg String.length he
  rw [String.length_append] at hl
  simp only [String.length_empty] at hl
  omega

theorem timeout_msg_ne (n : ℕ) :
    ("Request timeout (attempt " ++ toString n ++ "/3)") ≠ "" := by
  apply str_append_ne_empty
  rw [String.length_append]
  have h : "Request timeout (attempt ".length = 25 := by decide
  omega

theorem conn_msg_ne (m : String) : ("Request failed: " ++ m) ≠ "" := by
  apply str_append_ne_empty
  decide

/-- Claim C7, counterexample: Two concrete runs refute the claim's "raises if
and only if all retries are exhausted or the response contains a business
error": a timeout followed by a clean success still raises (the stale
`error_msg` survives the successful attempt), and a response carrying a
business `error` is returned to the caller without raising. -/
theorem make_request_counterexample :
    isErr (makeRequest Attempt.timeout (Attempt.ok ⟨none⟩) (Attempt.ok ⟨none⟩)) = true ∧
    specRaiseCond Attempt.timeout (Attempt.ok ⟨none⟩) (Attempt.ok ⟨none⟩) = false ∧
    isErr (makeRequest (Attempt.ok ⟨some "insufficient funds"⟩)
      (Attempt.ok ⟨none⟩) (Attempt.ok ⟨none⟩)) = false ∧
    specRaiseCond (Attempt.ok ⟨some "insufficient funds"⟩)
      (Attempt.ok ⟨none⟩) (Attempt.ok ⟨none⟩) = true := by
  refine ⟨?_, by decide, ?_, by decide⟩
  · simp [makeRequest, goAttempts, isErr, timeout_msg_ne]
  · simp [makeRequest, goAttempts, isErr]

/-- Claim C7, amended: The request loop makes `min 3 (leading transport
failures + 1)` POSTs — it stops at the first received response, so only
transport-level failures are retried (up to 3 attempts, with a pause
between them) and a business error inside a received response is never
retried; and it raises `SMMProviderError` exactly when at least one
transport failure occurred (or no response was ever received) and the final
received response, if any, carries no `error` key.  In particular a
business-error response is returned to the caller un-raised, and a
successful response preceded by a transport failure still raises. -/
theorem make_request_spec (a1 a2 a3 : Attempt) :
    (goAttempts [a1, a2, a3] 0 "" ⟨none⟩).2.2 =
      min 3 (leadingFails [a1, a2, a3] + 1) ∧
    isErr (makeRequest a1 a2 a3) = raiseFlag [a1, a2, a3] := by
  cases a1 with
  | ok b =>
    cases hbe : b.errKey <;>
      simp [goAttempts, makeRequest, isErr, raiseFlag, firstBody, leadingFails, hbe]
  | timeout =>
    cases a2 with
    | ok b =>
      cases hbe : b.errKey <;>
        simp [goAttempts, makeRequest, isErr, raiseFlag, firstBody, leadingFails,
          hbe, timeout_msg_ne]
    | timeout =>
      cases a3 with
      | ok b =>
        cases hbe : b.errKey <;>
          simp [goAttempts, makeRequest, isErr, raiseFlag, firstBody, leadingFails,
            hbe, timeout_msg_ne]
      | timeout =>
        simp [goAttempts, makeRequest, isErr, raiseFlag, firstBody, leadingFails,
          timeout_msg_ne]
      | connError m =>
        simp [goAttempts, makeRequest, isErr, raiseFlag, firstBody, leadingFails,
          conn_msg_ne]
    | connError m =>
      cases a3 with
      | ok b =>
        cases hbe : b.errKey <;>
          simp [goAttempts, makeRequest, isErr, raiseFlag, firstBody, leadingFails,
            hbe, conn_msg_ne]
      | timeout =>
        simp [goAttempts, makeRequest, isErr, raiseFlag, firstBody, leadingFails,
          timeout_msg_ne]
      | connError m' =>
        simp [goAttempts, makeRequest, isErr, raiseFlag, firstBody, leadingFails,
          conn_msg_ne]
  | connError m0 =>
    cases a2 with
    | ok b =>
      cases hbe : b.errKey <;>
        simp [goAttempts, makeRequest, isErr, raiseFlag, firstBody, leadingFails,
          hbe, conn_msg_ne]
    | timeout =>
      cases a3 with
      | ok b =>
        cases hbe : b.errKey <;>
          simp [goAttempts, makeRequest, isErr, raiseFlag, firstBody, leadingFails,
            hbe, timeout_msg_ne]
      | timeout =>
        simp [goAttempts, makeRequest, isErr, raiseFlag, firstBody, leadingFails,
          timeout_msg_ne]
      | connError m =>
        simp [goAttempts, makeRequest, isErr, raiseFlag, firstBody, leadingFails,
          conn_msg_ne]
    | connError m1 =>
      cases a3 with
      | ok b =>
        cases hbe : b.errKey <;>
          simp [goAttempts, makeRequest, isErr, raiseFlag, firstBody, leadingFails,
            hbe, conn_msg_ne]
      | timeout =>
        simp [goAttempts, makeRequest, isErr, raiseFlag, firstBody, leadingFails,
          timeout_msg_ne]
      | connError m2 =>
        simp [goAttempts, makeRequest, isErr, raiseFlag, firstBody, leadingFails,
          conn_msg_ne]

/-- Claim C8, counterexample: A webhook carrying *no* signature header, with a
secret key configured, is not rejected: validation is skipped entirely
(`if secret_key and signature:`), the lookup proceeds, and the pending
₦5000 deposit is confirmed — the response is 200-OK, not 401. -/
theorem webhook_unsigned_counterexample :
    squadWebhook "sk_secret" "" false
      (some ⟨"charge_successful", "", "CRV-1"⟩)
      ⟨0, [⟨TxType.deposit, 5000, 0, TxStatus.pending⟩]⟩ lookupRefCex =
      (WebhookResp.okResp,
       ⟨5000, [⟨TxType.deposit, 5000, 5000, TxStatus.success⟩]⟩) ∧
    WebhookResp.okResp ≠ WebhookResp.unauthorized := by
  constructor
  · simp only [squadWebhook, Wallet.confirm_deposit, lookupRefCex]
    norm_num
    decide
  · decide

/-- Claim C8, amended: When a secret key is configured *and* the request
carries a signature header, a failed HMAC validation is rejected with 401
before any lookup and with no state change; but a webhook with no signature
header bypasses validation entirely and, on a successful-payment event
whose reference resolves to a still-`PENDING` transaction, confirms the
deposit (crediting the wallet by the transaction amount). -/
theorem webhook_signature_spec :
    (∀ (sk sig : String) (p : Option WebhookPayload) (w : Wallet)
       (f : String → Option ℕ), sk ≠ "" → sig ≠ "" →
       squadWebhook sk sig false p w f = (WebhookResp.unauthorized, w)) ∧
    (∀ (sk : String) (b : Bool) (p : WebhookPayload) (w : Wallet)
       (f : String → Option ℕ) (i : ℕ) (tx : Txn),
       p.event = "charge_successful" → p.txRef ≠ "" → f p.txRef = some i →
       w.txs[i]? = some tx → tx.status = TxStatus.pending →
       squadWebhook sk "" b (some p) w f =
         (WebhookResp.okResp, (w.confirm_deposit i).1) ∧
       (w.confirm_deposit i).1.balance = w.balance + tx.amount) := by
  constructor
  · intro sk sig p w f hsk hsig
    unfold squadWebhook
    rw [if_pos ⟨hsk, hsig, rfl⟩]
  · intro sk b p w f i tx he hr hf htx hp
    have hguard : ¬ (sk ≠ "" ∧ ("" : String) ≠ "" ∧ b = false) := by simp
    have hcd : (w.confirm_deposit i).1.balance = w.balance + tx.amount := by
      unfold Wallet.confirm_deposit
      rw [htx]
      simp [hp]
    refine ⟨?_, hcd⟩
    unfold squadWebhook
    rw [if_neg hguard]
    simp only [if_pos (Or.inl he), if_neg hr, hf, htx, if_pos hp]

/-- Witness for C8 (amended): with a configured secret, an invalid
signature is rejected 401 leaving the wallet untouched; an absent signature
header lets the same payload confirm the pending ₦5000 deposit. -/
theorem webhook_signature_spec_witness :
    squadWebhook "sk_secret" "badsig" false
      (some ⟨"charge_successful", "", "CRV-1"⟩)
      ⟨0, [⟨TxType.deposit, 5000, 0, TxStatus.pending⟩]⟩ lookupRefCex =
      (WebhookResp.unauthorized,
       ⟨0, [⟨TxType.deposit, 5000, 0, TxStatus.pending⟩]⟩) ∧
    squadWebhook "sk_secret" "" true
      (some ⟨"charge_successful", "", "CRV-1"⟩)
      ⟨0, [⟨TxType.deposit, 5000, 0, TxStatus.pending⟩]⟩ lookupRefCex =
      (WebhookResp.okResp,
       (Wallet.confirm_deposit
         ⟨0, [⟨TxType.deposit, 5000, 0, TxStatus.pending⟩]⟩ 0).1) ∧
    (Wallet.confirm_deposit
      ⟨0, [⟨TxType.deposit, 5000, 0, TxStatus.pending⟩]⟩ 0).1.balance =
      (0 : ℚ) + 5000 :=
  ⟨webhook_signature_spec.1 "sk_secret" "badsig"
      (some ⟨"charge_successful", "", "CRV-1"⟩)
      ⟨0, [⟨TxType.deposit, 5000, 0, TxStatus.pending⟩]⟩ lookupRefCex
      (by decide) (by decide),
   (webhook_signature_spec.2 "sk_secret" true
      ⟨"charge_successful", "", "CRV-1"⟩
      ⟨0, [⟨TxType.deposit, 5000, 0, TxStatus.pending⟩]⟩ lookupRefCex 0
      ⟨TxType.deposit, 5000, 0, TxStatus.pending⟩
      rfl (by decide) rfl rfl rfl).1,
   (webhook_signature_spec.2 "sk_secret" true
      ⟨"charge_successful", "", "CRV-1"⟩
      ⟨0, [⟨TxType.deposit, 5000, 0, TxStatus.pending⟩]⟩ lookupRefCex 0
      ⟨TxType.deposit, 5000, 0, TxStatus.pending⟩
      rfl (by decide) rfl rfl rfl).2⟩

